import Mathlib

/-!
Verification of the percolator protein-probability core against its
specification.  The development shallowly embeds the two source files
`IntraSetRelation.cpp` and `ProteinProbEstimator.cpp`: C++ `double`
arithmetic is modelled exactly over `ℚ`, `std::map` is modelled as an
association list with map-style lookup/update, and the external fido
inference engine is abstracted behind an explicit objective-function
parameter.
-/

/- ## IntraSetRelation (IntraSetRelation.cpp)

The class header is not part of the sources; per the specification the
fields are: `numPeptides` (peptide-id → occurrence count), `numProteins`
(protein-id → occurrence count) and `prot2pep` (protein-id → set of
peptide-ids).  `std::map` is modelled as an association list with unique
keys; lookups are position-independent, so replace-or-append faithfully
models map insertion. -/

/-- Modelled from the spec: the field layout of `IntraSetRelation` (its
header is not among the sources).  §3 of the spec: "mapping peptide-id →
occurrence count; mapping protein-id → occurrence count; mapping
protein-id → set of peptide-ids it was registered with".  The one-argument
`prot2pep[p].insert(pep)` in the `.cpp` matches the `std::set` interface. -/
structure IntraSetRelation where
  numPeptides : List (String × Nat)
  numProteins : List (String × Nat)
  prot2pep : List (String × Finset String)
deriving DecidableEq

/-- `m[k] = v` on a `std::map` modelled as an association list: replace the
binding if the key is present, otherwise add it. -/
def alistSet {α : Type} : List (String × α) → String → α → List (String × α)
  | [], k, v => [(k, v)]
  | (k', v') :: rest, k, v =>
    if k' = k then (k, v) :: rest else (k', v') :: alistSet rest k v

/-- `if(m.count(k)==0) m[k]=1; else m[k]++;` -/
def bumpCount (m : List (String × Nat)) (k : String) : List (String × Nat) :=
  match List.lookup k m with
  | none => alistSet m k 1
  | some v => alistSet m k (v + 1)

/-- The protein loop of `registerRel`: for each protein bump its occurrence
count and insert the peptide into its peptide set
(`prot2pep[*iProt].insert(pep)`; a missing key default-constructs an empty
set first). -/
def registerRelLoop (pep : String) : List String → IntraSetRelation → IntraSetRelation
  | [], acc => acc
  | p :: rest, acc =>
    registerRelLoop pep rest
      { acc with
        numProteins := bumpCount acc.numProteins p,
        prot2pep := alistSet acc.prot2pep p
          (insert pep ((List.lookup p acc.prot2pep).getD ∅)) }

/-- `IntraSetRelation::registerRel(string pep, set<string> &prot)`: bump the
peptide count once, then run the protein loop.  The `prot` argument is the
iteration sequence of the C++ `std::set` (distinct elements). -/
def registerRel (r : IntraSetRelation) (pep : String) (prot : List String) :
    IntraSetRelation :=
  registerRelLoop pep prot { r with numPeptides := bumpCount r.numPeptides pep }

/-- The loop of `IntraSetRelation::getPepSites`: `int n=prot2pep[*iProt].size();
if (n>maxn) maxn=n;`.  `prot2pep[*iProt]` is `std::map::operator[]`, which
default-inserts an empty set when the key is absent — that state change is
part of the model. -/
def getPepSitesLoop (maxn : Nat) (r : IntraSetRelation) :
    List String → Nat × IntraSetRelation
  | [] => (maxn, r)
  | p :: rest =>
    let s := (List.lookup p r.prot2pep).getD ∅
    let r' := { r with prot2pep := alistSet r.prot2pep p s }
    getPepSitesLoop (if s.card > maxn then s.card else maxn) r' rest

/-- `IntraSetRelation::getPepSites(set<string> &prot)` (the spec's
`maxPeptideDegree`): returns the maximum registered-peptide count over
`prot`, together with the possibly-changed relation state. -/
def getPepSites (r : IntraSetRelation) (prot : List String) :
    Nat × IntraSetRelation :=
  getPepSitesLoop 0 r prot

/-- Number of peptides currently registered to protein `p`. -/
def degreeIn (r : IntraSetRelation) (p : String) : Nat :=
  ((List.lookup p r.prot2pep).getD ∅).card

/- ## ProteinProbEstimator (ProteinProbEstimator.cpp)

`double` arithmetic is modelled exactly over `ℚ`.  The fido inference
engine (`GroupPowerBigraph`) is the spec's external collaborator: only the
parallel arrays it hands back (`probabilityR`, `groupProtNames`) appear
here, and the per-cell objective computation that runs through it is
abstracted as an explicit function of (alpha, beta). -/

/-- `fidoOutput(sorted, protein_ids, qvalues)`: the aggregated output
structure. -/
structure fidoOutput where
  peps : List ℚ
  protein_ids : List (List String)
  qvalues : List ℚ
deriving DecidableEq

/-- Comparison used by the sort on (posterior-error, original-index)
pairs: ascending by value, ties broken by original index. -/
def pairLe (x y : ℚ × Nat) : Prop :=
  x.1 < y.1 ∨ (x.1 = y.1 ∧ x.2 ≤ y.2)

instance pairLe.decidableRel : DecidableRel pairLe := fun x y =>
  inferInstanceAs (Decidable (x.1 < y.1 ∨ (x.1 = y.1 ∧ x.2 ≤ y.2)))

instance pairLe.isTotal : IsTotal (ℚ × Nat) pairLe where
  total a b := by
    unfold pairLe
    rcases lt_trichotomy a.1 b.1 with h | h | h
    · exact Or.inl (Or.inl h)
    · rcases Nat.le_total a.2 b.2 with h2 | h2
      · exact Or.inl (Or.inr ⟨h, h2⟩)
      · exact Or.inr (Or.inr ⟨h.symm, h2⟩)
    · exact Or.inr (Or.inl h)

instance pairLe.isTrans : IsTrans (ℚ × Nat) pairLe where
  trans a b c hab hbc := by
    unfold pairLe at hab hbc ⊢
    rcases hab with h1 | ⟨h1, h1n⟩
    · rcases hbc with h2 | ⟨h2, h2n⟩
      · exact Or.inl (h1.trans h2)
      · exact Or.inl (lt_of_lt_of_eq h1 h2)
    · rcases hbc with h2 | ⟨h2, h2n⟩
      · exact Or.inl (lt_of_eq_of_lt h1 h2)
      · exact Or.inr ⟨h1.trans h2, h1n.trans h2n⟩

/-- Pairs each array entry with its index, starting at `k`. -/
def zipIdx : List ℚ → Nat → List (ℚ × Nat)
  | [], _ => []
  | x :: xs, k => (x, k) :: zipIdx xs (k + 1)

/-- Modelled from the spec: fido's `Array<T>::sort()` (the `Array`
container library is not among the sources).  Per §4.3 it sorts the
posterior-error array ascending and yields the permutation of original
indices realising the sort, ties broken by original index for
reproducibility. -/
def sortWithIndices (p : List ℚ) : List (ℚ × Nat) :=
  List.insertionSort pairLe (zipIdx p 0)

/-- The index permutation computed by the sort (`Array<int> indices =
sorted.sort()`). -/
def sortPermutation (p : List ℚ) : List Nat :=
  (sortWithIndices p).map Prod.snd

/-- The q-value loop of `buildOutput`:
`sumPepSoFar += sorted[k]; qvalues[k] = sumPepSoFar/(k+1);`. -/
def qvaluesAux : ℚ → Nat → List ℚ → List ℚ
  | _, _, [] => []
  | sumPepSoFar, k, pk :: rest =>
    ((sumPepSoFar + pk) / ((k : ℚ) + 1)) :: qvaluesAux (sumPepSoFar + pk) (k + 1) rest

/-- `buildOutput(GroupPowerBigraph*)`: `assert(sorted.size()!=0)` is
modelled as returning `none`; otherwise sort the PEP array ascending,
reorder `groupProtNames` by the sorting permutation
(`protein_ids[k] = proteinGraph->groupProtNames[indices[k]]`), and compute
the running-mean q-values. -/
def buildOutput (probabilityR : List ℚ) (groupProtNames : List (List String)) :
    Option fidoOutput :=
  if probabilityR = [] then none
  else
    let sortedPairs := sortWithIndices probabilityR
    let sorted := sortedPairs.map Prod.fst
    let protein_ids := sortedPairs.map (fun pr => groupProtNames.getD pr.2 [])
    some ⟨sorted, protein_ids, qvaluesAux 0 0 sorted⟩

/-- `populateTPandFNLists`: walk the `proteinsToPeptides` table (here an
association list protein-id → labels of its associated peptides, in table
iteration order).  Per peptide the loop runs
`if((*peptIt)->label != 1) fp = true; else tp = true;`, then the protein is
appended to the truePositives list when `tp` and to the falsePositives list
when `fp` (possibly both). -/
def populateTPandFNLists : List (String × List Int) → List String × List String
  | [] => ([], [])
  | (prot, labels) :: rest =>
    let r := populateTPandFNLists rest
    let tp := labels.any (fun l => l == 1)
    let fp := labels.any (fun l => l != 1)
    (if tp then prot :: r.1 else r.1, if fp then prot :: r.2 else r.2)

/- ## Grid search (gridSearchAlphaBeta) -/

/-- `struct gridPoint`: coordinates plus the objective value (sentinel −1
until computed).  The true/false positive name lists play no role in the
claims below and are elided. -/
structure gridPoint where
  alpha : ℚ
  beta : ℚ
  objectiveFnValue : ℚ
deriving DecidableEq

/-- `gridPoint::operator>`: `if(objectiveFnValue > rhs.objectiveFnValue)
return true; else return false;`. -/
def gridPointGT (lhs rhs : gridPoint) : Bool :=
  if lhs.objectiveFnValue > rhs.objectiveFnValue then true else false

/-- The estimator fields written during the search
(`toBeTested->alpha`, `toBeTested->beta`). -/
structure EstimatorState where
  alpha : ℚ
  beta : ℚ
deriving DecidableEq

/-- `gridPoint::calculateObjectiveFn`: writes the point's coordinates onto
the shared estimator, runs inference with them and computes
`(1−λ)·MSE_FDR − λ·ROC50`.  The inference-and-curves pipeline behind that
number runs through the external fido engine, so the resulting value is
abstracted as `objFn alpha beta`. -/
def calculateObjectiveFn (objFn : ℚ → ℚ → ℚ) (pt : gridPoint)
    (_st : EstimatorState) : gridPoint × EstimatorState :=
  (⟨pt.alpha, pt.beta, objFn pt.alpha pt.beta⟩, ⟨pt.alpha, pt.beta⟩)

/-- `numeric_limits<double>::min()`: the smallest positive normalised
double, `2^{-1022}`. -/
def minDouble : ℚ := 1 / 2 ^ 1022

/-- Iteration count of `for(double x=lower; x<=upper; x+=0.05)` in exact
arithmetic: one iteration per `k` with `lower + k·0.05 ≤ upper`, i.e.
`⌊(upper−lower)·20⌋ + 1` of them when the range is non-empty. -/
def gridCount (lower upper : ℚ) : Nat :=
  if lower ≤ upper then
    ((upper - lower) * 20).num.toNat / ((upper - lower) * 20).den + 1
  else 0

/-- The values visited by `for(double x=lower; x<=upper; x+=0.05)`. -/
def gridValues (lower upper : ℚ) : List ℚ :=
  (List.range (gridCount lower upper)).map (fun (k : Nat) => lower + (k : ℚ) * (5 / 100))

/-- The bound set-up at the top of `gridSearchAlphaBeta`:
`double lower_a=0.01, upper_a=0.76;  double lower_b=0.0, upper_b=0.80;`
`if(alpha != -1) lower_a = upper_a = alpha;`
`if(beta != -1) lower_a = upper_a = beta;`
(the second pinning line assigns the alpha bounds in the source).
Returns ((lower_a, upper_a), (lower_b, upper_b)). -/
def gridBounds (alpha beta : ℚ) : (ℚ × ℚ) × (ℚ × ℚ) :=
  let ab0 : ℚ × ℚ := (1 / 100, 76 / 100)
  let ab1 : ℚ × ℚ := if alpha ≠ -1 then (alpha, alpha) else ab0
  let ab2 : ℚ × ℚ := if beta ≠ -1 then (beta, beta) else ab1
  (ab2, (0, 80 / 100))

/-- The cells visited by the two nested loops: alpha outer ascending, beta
inner ascending. -/
def gridCells (alpha beta : ℚ) : List (ℚ × ℚ) :=
  let b := gridBounds alpha beta
  (gridValues b.1.1 b.1.2).flatMap
    (fun a => (gridValues b.2.1 b.2.2).map (fun bb => (a, bb)))

/-- The body of the nested grid loops.  In the source,
`if(current>bestSoFar)` has no braces and guards only the `VERB > 2`
diagnostic print on the line below it; the assignment `bestSoFar =
current;` that follows executes on every iteration.  The comparison is
still evaluated (for the diagnostic), which is all `operator>` is used
for. -/
def gridSearchLoop (objFn : ℚ → ℚ → ℚ) :
    List (ℚ × ℚ) → gridPoint → EstimatorState → gridPoint × EstimatorState
  | [], bestSoFar, st => (bestSoFar, st)
  | (a, b) :: rest, bestSoFar, st =>
    let evaluated := calculateObjectiveFn objFn ⟨a, b, -1⟩ st
    let _ := gridPointGT evaluated.1 bestSoFar
    gridSearchLoop objFn rest evaluated.1 evaluated.2

/-- The artificial starting point of the search: `gridPoint bestSoFar;
bestSoFar.objectiveFnValue = numeric_limits<double>::min();` (alpha/beta
are left uninitialised by `gridPoint()`, modelled as 0). -/
def bestSoFarSeed : gridPoint := ⟨0, 0, minDouble⟩

/-- `ProteinProbEstimator::gridSearchAlphaBeta()`: seeds `bestSoFar`, then
runs the nested loops over the grid determined by the current estimator
fields.  Returns the final `bestSoFar` (which the source then discards)
together with the estimator state left behind by the last
`calculateObjectiveFn`. -/
def gridSearchAlphaBeta (objFn : ℚ → ℚ → ℚ) (st : EstimatorState) :
    gridPoint × EstimatorState :=
  gridSearchLoop objFn (gridCells st.alpha st.beta) bestSoFarSeed st

/-- A concrete objective function exercising the grid search: value 100 at
the first grid cell (0.01, 0.00) and 0 everywhere else. -/
def objEx (a b : ℚ) : ℚ :=
  if a = 1 / 100 ∧ b = 0 then 100 else 0

/-- A concrete relation state for witnesses: one registered protein "P1"
with two peptides. -/
def relEx : IntraSetRelation :=
  ⟨[("x", 1), ("y", 1)], [("P1", 2)], [("P1", {"x", "y"})]⟩

/- ## Lookup lemmas for the association-list map model -/

theorem lookup_alistSet {α : Type} (m : List (String × α)) (k k' : String) (v : α) :
    List.lookup k (alistSet m k' v) = if k = k' then some v else List.lookup k m := by
  induction m with
  | nil =>
    by_cases h : k = k'
    · subst h; simp [alistSet, List.lookup]
    · simp [alistSet, List.lookup, h, beq_eq_false_iff_ne.mpr h]
  | cons hd tl ih =>
    obtain ⟨a, b⟩ := hd
    by_cases h1 : a = k'
    · subst h1
      by_cases h2 : k = a
      · subst h2; simp [alistSet, List.lookup]
      · simp [alistSet, List.lookup, h2, beq_eq_false_iff_ne.mpr h2]
    · by_cases h2 : k = a
      · subst h2
        simp [alistSet, List.lookup, h1, Ne.symm h1, beq_eq_false_iff_ne.mpr (Ne.symm h1)]
      · simp [alistSet, List.lookup, h1, h2, beq_eq_false_iff_ne.mpr h2, ih]

theorem lookup_bumpCount (m : List (String × Nat)) (k q : String) :
    List.lookup q (bumpCount m k) =
      if q = k then some ((List.lookup k m).getD 0 + 1) else List.lookup q m := by
  unfold bumpCount
  cases h : List.lookup k m <;> simp [lookup_alistSet, h]

/- ## Characterisation of registerRel -/

theorem registerRelLoop_numPeptides (pep : String) :
    ∀ (prot : List String) (acc : IntraSetRelation),
      (registerRelLoop pep prot acc).numPeptides = acc.numPeptides := by
  intro prot
  induction prot with
  | nil => intro acc; rfl
  | cons p rest ih => intro acc; exact ih _

theorem registerRelLoop_lookup_numProteins (pep : String) :
    ∀ (prot : List String), prot.Nodup → ∀ (q : String) (acc : IntraSetRelation),
      List.lookup q (registerRelLoop pep prot acc).numProteins =
        if q ∈ prot then some ((List.lookup q acc.numProteins).getD 0 + 1)
        else List.lookup q acc.numProteins := by
  intro prot
  induction prot with
  | nil => intro _ q acc; simp [registerRelLoop]
  | cons p rest ih =>
    intro hnd q acc
    have hp : p ∉ rest := (List.nodup_cons.mp hnd).1
    have hr : rest.Nodup := (List.nodup_cons.mp hnd).2
    show List.lookup q (registerRelLoop pep rest _).numProteins = _
    rw [ih hr q _]
    by_cases hq : q = p
    · subst hq
      have hqr : q ∉ rest := hp
      simp [hqr, lookup_bumpCount]
    · by_cases hqr : q ∈ rest <;> simp [hq, hqr, lookup_bumpCount]

theorem registerRelLoop_lookup_prot2pep (pep : String) :
    ∀ (prot : List String), prot.Nodup → ∀ (q : String) (acc : IntraSetRelation),
      List.lookup q (registerRelLoop pep prot acc).prot2pep =
        if q ∈ prot then some (insert pep ((List.lookup q acc.prot2pep).getD ∅))
        else List.lookup q acc.prot2pep := by
  intro prot
  induction prot with
  | nil => intro _ q acc; simp [registerRelLoop]
  | cons p rest ih =>
    intro hnd q acc
    have hp : p ∉ rest := (List.nodup_cons.mp hnd).1
    have hr : rest.Nodup := (List.nodup_cons.mp hnd).2
    show List.lookup q (registerRelLoop pep rest _).prot2pep = _
    rw [ih hr q _]
    by_cases hq : q = p
    · subst hq
      have hqr : q ∉ rest := hp
      simp [hqr, lookup_alistSet]
    · by_cases hqr : q ∈ rest <;> simp [hq, hqr, lookup_alistSet]

/- ## Characterisation of getPepSites -/

theorem getPepSitesLoop_numPeptides :
    ∀ (prot : List String) (maxn : Nat) (r : IntraSetRelation),
      (getPepSitesLoop maxn r prot).2.numPeptides = r.numPeptides := by
  intro prot
  induction prot with
  | nil => intro maxn r; rfl
  | cons p rest ih => intro maxn r; exact ih _ _

theorem getPepSitesLoop_numProteins :
    ∀ (prot : List String) (maxn : Nat) (r : IntraSetRelation),
      (getPepSitesLoop maxn r prot).2.numProteins = r.numProteins := by
  intro prot
  induction prot with
  | nil => intro maxn r; rfl
  | cons p rest ih => intro maxn r; exact ih _ _

theorem getPepSitesLoop_lookup_prot2pep :
    ∀ (prot : List String) (maxn : Nat) (r : IntraSetRelation) (q : String),
      List.lookup q (getPepSitesLoop maxn r prot).2.prot2pep =
        match List.lookup q r.prot2pep with
        | some s => some s
        | none => if q ∈ prot then some ∅ else none := by
  intro prot
  induction prot with
  | nil =>
    intro maxn r q
    cases h : List.lookup q r.prot2pep <;> simp [getPepSitesLoop, h]
  | cons p rest ih =>
    intro maxn r q
    show List.lookup q (getPepSitesLoop _ _ rest).2.prot2pep = _
    rw [ih]
    by_cases hq : q = p
    · subst hq
      cases h : List.lookup q r.prot2pep <;>
        simp [lookup_alistSet, h]
    · rw [lookup_alistSet]
      cases h : List.lookup q r.prot2pep <;>
        simp [hq, h]

theorem getPepSitesLoop_degreeIn (r : IntraSetRelation) (p q : String) :
    degreeIn { r with
      prot2pep := alistSet r.prot2pep p ((List.lookup p r.prot2pep).getD ∅) } q =
      degreeIn r q := by
  unfold degreeIn
  show ((List.lookup q (alistSet r.prot2pep p _)).getD ∅).card = _
  rw [lookup_alistSet]
  by_cases hq : q = p
  · subst hq
    cases h : List.lookup q r.prot2pep <;> simp [h]
  · simp [hq]

theorem getPepSitesLoop_value :
    ∀ (prot : List String) (maxn : Nat) (r : IntraSetRelation),
      (getPepSitesLoop maxn r prot).1 =
        prot.foldl (fun m p => if degreeIn r p > m then degreeIn r p else m) maxn := by
  intro prot
  induction prot with
  | nil => intro maxn r; rfl
  | cons p rest ih =>
    intro maxn r
    show (getPepSitesLoop _ _ rest).1 = _
    rw [ih]
    have hdeg := getPepSitesLoop_degreeIn r p
    have hfun :
        (fun m q => if degreeIn { r with
            prot2pep := alistSet r.prot2pep p ((List.lookup p r.prot2pep).getD ∅) } q > m
          then degreeIn { r with
            prot2pep := alistSet r.prot2pep p ((List.lookup p r.prot2pep).getD ∅) } q
          else m) =
        (fun m q => if degreeIn r q > m then degreeIn r q else m) := by
      funext m q
      rw [hdeg q]
    rw [hfun]
    show _ = List.foldl _ (if degreeIn r p > maxn then degreeIn r p else maxn) rest
    rfl


/- ## Grid-search lemmas -/

/-- Closed form of the grid loop: because the `bestSoFar = current;`
assignment is unguarded, the loop result is determined entirely by the last
cell (or is the seed/state pair when no cell exists). -/
theorem gridSearchLoop_eq (objFn : ℚ → ℚ → ℚ) :
    ∀ (cells : List (ℚ × ℚ)) (best : gridPoint) (st : EstimatorState),
      gridSearchLoop objFn cells best st =
        match cells.getLast? with
        | none => (best, st)
        | some c => (⟨c.1, c.2, objFn c.1 c.2⟩, ⟨c.1, c.2⟩) := by
  intro cells
  induction cells with
  | nil => intro best st; rfl
  | cons c rest ih =>
    intro best st
    obtain ⟨a, b⟩ := c
    cases rest with
    | nil => rfl
    | cons c2 rest2 =>
      show gridSearchLoop objFn (c2 :: rest2) ⟨a, b, objFn a b⟩ ⟨a, b⟩ = _
      have hsome := List.getLast?_eq_getLast (c2 :: rest2) (by simp)
      rw [ih, List.getLast?_cons_cons, hsome]

theorem gridValues_getLast? (lower upper : ℚ) (n : Nat)
    (h : gridCount lower upper = n + 1) :
    (gridValues lower upper).getLast? = some (lower + (n : ℚ) * (5 / 100)) := by
  rw [gridValues, h, List.range_succ, List.map_append]
  simp

theorem mem_gridValues (lower upper : ℚ) (k : Nat) (hk : k < gridCount lower upper) :
    lower + (k : ℚ) * (5 / 100) ∈ gridValues lower upper := by
  rw [gridValues]
  exact List.mem_map.mpr ⟨k, List.mem_range.mpr hk, rfl⟩

theorem gridValues_head_mem (lower upper : ℚ) (h : 0 < gridCount lower upper) :
    lower ∈ gridValues lower upper := by
  have h0 := mem_gridValues lower upper 0 h
  simpa using h0

theorem getLast?_product (betas : List ℚ) (la lb : ℚ) :
    ∀ (alphas : List ℚ), alphas.getLast? = some la → betas.getLast? = some lb →
      (alphas.flatMap (fun a => betas.map (fun b => (a, b)))).getLast? = some (la, lb) := by
  intro alphas
  induction alphas with
  | nil => intro ha _; simp at ha
  | cons a rest ih =>
    intro ha hb
    cases rest with
    | nil =>
      simp at ha
      subst ha
      rw [List.flatMap_cons, List.flatMap_nil, List.append_nil, List.getLast?_map, hb]
      rfl
    | cons a2 rest2 =>
      have ha2 : (a2 :: rest2).getLast? = some la := by
        rwa [List.getLast?_cons_cons] at ha
      rw [List.flatMap_cons, List.getLast?_append, ih ha2 hb]
      rfl

theorem gridBounds_unpinned :
    gridBounds (-1) (-1) = ((1 / 100, 76 / 100), (0, 80 / 100)) := by
  norm_num [gridBounds]

theorem gridCount_alphaRange : gridCount (1 / 100) (76 / 100) = 16 := by
  norm_num [gridCount]
  decide

theorem gridCount_betaRange : gridCount 0 (80 / 100) = 17 := by
  norm_num [gridCount]
  decide

theorem gridCells_unpinned :
    gridCells (-1) (-1) =
      (gridValues (1 / 100) (76 / 100)).flatMap
        (fun a => (gridValues 0 (80 / 100)).map (fun b => (a, b))) := by
  rw [gridCells, gridBounds_unpinned]

theorem gridValues_alphaRange_getLast? :
    (gridValues (1 / 100) (76 / 100)).getLast? = some (76 / 100) := by
  rw [gridValues_getLast? (1 / 100) (76 / 100) 15 (by rw [gridCount_alphaRange])]
  norm_num

theorem gridValues_betaRange_getLast? :
    (gridValues 0 (80 / 100)).getLast? = some (80 / 100) := by
  rw [gridValues_getLast? 0 (80 / 100) 16 (by rw [gridCount_betaRange])]
  norm_num

theorem gridCells_unpinned_getLast? :
    (gridCells (-1) (-1)).getLast? = some (76 / 100, 80 / 100) := by
  rw [gridCells_unpinned]
  exact getLast?_product _ _ _ _ gridValues_alphaRange_getLast? gridValues_betaRange_getLast?

theorem firstCell_mem_unpinned : (1 / 100, 0) ∈ gridCells (-1) (-1) := by
  rw [gridCells_unpinned]
  refine List.mem_flatMap.mpr ⟨1 / 100, ?_, List.mem_map.mpr ⟨0, ?_, rfl⟩⟩
  · exact gridValues_head_mem _ _ (by rw [gridCount_alphaRange]; decide)
  · exact gridValues_head_mem _ _ (by rw [gridCount_betaRange]; decide)

/- ## Claim theorems: grid search -/

/-- **C1** (code bug): the spec says the retained best-so-far cell is the
one with the strictly greatest objective value among the cells evaluated so
far.  In the source the braces after `if(current>bestSoFar)` are missing,
so the `if` guards only the diagnostic print and `bestSoFar = current;`
runs on every iteration: with an objective equal to 100 at the evaluated
cell (0.01, 0) and 0 elsewhere, the search finishes holding the last
enumerated cell (0.76, 0.80) with objective value 0 — not the cell with
the strictly greatest objective. -/
theorem gridSearch_bestSoFar_is_last_cell :
    (gridSearchAlphaBeta objEx ⟨-1, -1⟩).1 = ⟨76 / 100, 80 / 100, 0⟩ ∧
    (1 / 100, 0) ∈ gridCells (-1) (-1) ∧
    objEx (1 / 100) 0 = 100 := by
  refine ⟨?_, firstCell_mem_unpinned, by norm_num [objEx]⟩
  show (gridSearchLoop objEx (gridCells (-1) (-1)) bestSoFarSeed ⟨-1, -1⟩).1 = _
  rw [gridSearchLoop_eq, gridCells_unpinned_getLast?]
  norm_num [objEx]

/-- **C2** (code bug): the spec says that on completion the estimator's
persistent alpha/beta fields hold the winning cell's coordinates.
`gridSearchAlphaBeta` never copies `bestSoFar` onto the estimator; the
fields merely keep whatever the last `calculateObjectiveFn` wrote, i.e. the
last enumerated cell (0.76, 0.80) — while the cell with the greatest
objective value (objective 100, versus 0 for the committed cell) was
(0.01, 0). -/
theorem gridSearch_commits_last_cell_params :
    (gridSearchAlphaBeta objEx ⟨-1, -1⟩).2 = ⟨76 / 100, 80 / 100⟩ ∧
    (1 / 100, 0) ∈ gridCells (-1) (-1) ∧
    objEx (1 / 100) 0 = 100 ∧ objEx (76 / 100) (80 / 100) = 0 := by
  refine ⟨?_, firstCell_mem_unpinned, by norm_num [objEx], by norm_num [objEx]⟩
  show (gridSearchLoop objEx (gridCells (-1) (-1)) bestSoFarSeed ⟨-1, -1⟩).2 = _
  rw [gridSearchLoop_eq, gridCells_unpinned_getLast?]

/-- **C3** (code bug): the spec says pinning exactly one hyperparameter
collapses only that dimension.  The source line `if(beta != -1) lower_a =
upper_a = beta;` assigns the *alpha* bounds, so with alpha unset (−1) and
beta pinned to 0.2 every evaluated cell has alpha = 0.2 (the alpha
dimension collapses to the pinned beta value) while beta is still
enumerated over its full 17-value range; the cell (0.01, 0.2) the claim
requires is never evaluated. -/
theorem gridSearch_beta_pin_collapses_alpha :
    gridCells (-1) (1 / 5) = (gridValues 0 (80 / 100)).map (fun b => (1 / 5, b)) ∧
    (gridValues 0 (80 / 100)).length = 17 ∧
    (∀ c ∈ gridCells (-1) (1 / 5), c.1 = 1 / 5) ∧
    (1 / 100, 1 / 5) ∉ gridCells (-1) (1 / 5) := by
  have hb : gridBounds (-1) (1 / 5) = ((1 / 5, 1 / 5), (0, 80 / 100)) := by
    norm_num [gridBounds]
  have hva : gridValues (1 / 5) (1 / 5) = [1 / 5] := by
    norm_num [gridValues, gridCount, List.range_succ]
  have h1 : gridCells (-1) (1 / 5) = (gridValues 0 (80 / 100)).map (fun b => (1 / 5, b)) := by
    rw [gridCells, hb, hva]
    simp
  have h3 : ∀ c ∈ gridCells (-1) (1 / 5), c.1 = 1 / 5 := by
    intro c hc
    rw [h1] at hc
    obtain ⟨b, _, rfl⟩ := List.mem_map.mp hc
    rfl
  refine ⟨h1, ?_, h3, ?_⟩
  · rw [gridValues, List.length_map, List.length_range, gridCount_betaRange]
  · intro hmem
    have := h3 (1 / 100, 1 / 5) hmem
    norm_num at this

/-- **C8** (code bug): the spec says the best-so-far objective is seeded
with the minimum representable value so that any first cell replaces it.
The source seeds it with `numeric_limits<double>::min()`, the *smallest
positive normalised* double 2^(−1022): the representable value −1 lies
below the seed, and under the strict `operator>` a first cell whose
objective value is 0 does not exceed the seed. -/
theorem gridSearch_seed_not_minimum :
    bestSoFarSeed.objectiveFnValue = minDouble ∧
    (0 : ℚ) < minDouble ∧ (-1 : ℚ) < minDouble ∧
    gridPointGT ⟨1 / 100, 0, 0⟩ bestSoFarSeed = false := by
  refine ⟨rfl, ?_, ?_, ?_⟩ <;> norm_num [minDouble, gridPointGT, bestSoFarSeed]

/- ## Claim theorems: IntraSetRelation -/

/-- **C9** counterexample: registering the same peptide with the same
protein set twice does bump both occurrence counts to 2, but the protein's
peptide collection holds the peptide once (cardinality 1), not "twice, as a
duplicate" — `prot2pep` stores a set of peptide ids, which deduplicates. -/
theorem registerRel_twice_no_duplicate_counterexample :
    ((List.lookup "P1"
        (registerRel (registerRel ⟨[], [], []⟩ "pep" ["P1"]) "pep" ["P1"]).prot2pep).getD
        ∅).card = 1 ∧
    List.lookup "pep"
        (registerRel (registerRel ⟨[], [], []⟩ "pep" ["P1"]) "pep" ["P1"]).numPeptides
      = some 2 ∧
    List.lookup "P1"
        (registerRel (registerRel ⟨[], [], []⟩ "pep" ["P1"]) "pep" ["P1"]).numProteins
      = some 2 := by
  decide

/-- **C9** (amended): calling `registerRel` a second time with the same
peptide and protein set increments the peptide's occurrence count and each
listed protein's occurrence count again (registration is not idempotent),
but the peptide appears only once in each protein's peptide-id set: the
second registration leaves every `prot2pep` entry unchanged, since the
collection is a `std::set` keyed by peptide id, not an insertion-ordered
list with duplicates. -/
theorem registerRel_twice_increments_counts (r : IntraSetRelation) (pep : String)
    (prot : List String) (hnd : prot.Nodup) :
    List.lookup pep (registerRel (registerRel r pep prot) pep prot).numPeptides
        = some ((List.lookup pep r.numPeptides).getD 0 + 2) ∧
    (∀ p ∈ prot,
      List.lookup p (registerRel (registerRel r pep prot) pep prot).numProteins
        = some ((List.lookup p r.numProteins).getD 0 + 2)) ∧
    (∀ p ∈ prot,
      List.lookup p (registerRel (registerRel r pep prot) pep prot).prot2pep
        = List.lookup p (registerRel r pep prot).prot2pep) := by
  have hnp : ∀ x : IntraSetRelation,
      (registerRel x pep prot).numPeptides = bumpCount x.numPeptides pep := by
    intro x
    rw [registerRel, registerRelLoop_numPeptides]
  refine ⟨?_, ?_, ?_⟩
  · rw [hnp, hnp, lookup_bumpCount]
    simp [lookup_bumpCount, add_assoc]
  · intro p hp
    have h1 : List.lookup p (registerRel r pep prot).numProteins
        = some ((List.lookup p r.numProteins).getD 0 + 1) := by
      rw [registerRel, registerRelLoop_lookup_numProteins pep prot hnd p, if_pos hp]
    rw [registerRel, registerRelLoop_lookup_numProteins pep prot hnd p, if_pos hp]
    show some (((List.lookup p (registerRel r pep prot).numProteins).getD 0) + 1) = _
    rw [h1]
    simp [add_assoc]
  · intro p hp
    have h1 : List.lookup p (registerRel r pep prot).prot2pep
        = some (insert pep ((List.lookup p r.prot2pep).getD ∅)) := by
      rw [registerRel, registerRelLoop_lookup_prot2pep pep prot hnd p, if_pos hp]
    have h2 := registerRelLoop_lookup_prot2pep pep prot hnd p
      { registerRel r pep prot with
        numPeptides := bumpCount (registerRel r pep prot).numPeptides pep }
    rw [if_pos hp] at h2
    calc List.lookup p (registerRel (registerRel r pep prot) pep prot).prot2pep
        = some (insert pep ((List.lookup p (registerRel r pep prot).prot2pep).getD ∅)) := h2
      _ = List.lookup p (registerRel r pep prot).prot2pep := by
          rw [h1]
          simp [Finset.insert_idem]

/-- Witness for the amended C9 theorem at a concrete input: two
registrations of ("pep", {"P1"}) into the empty relation. -/
theorem registerRel_twice_increments_counts_witness :
    List.lookup "pep"
        (registerRel (registerRel ⟨[], [], []⟩ "pep" ["P1"]) "pep" ["P1"]).numPeptides
      = some 2 ∧
    List.lookup "P1"
        (registerRel (registerRel ⟨[], [], []⟩ "pep" ["P1"]) "pep" ["P1"]).numProteins
      = some 2 ∧
    List.lookup "P1"
        (registerRel (registerRel ⟨[], [], []⟩ "pep" ["P1"]) "pep" ["P1"]).prot2pep
      = List.lookup "P1" (registerRel ⟨[], [], []⟩ "pep" ["P1"]).prot2pep := by
  have h := registerRel_twice_increments_counts ⟨[], [], []⟩ "pep" ["P1"] (by decide)
  exact ⟨h.1, h.2.1 "P1" (by decide), h.2.2 "P1" (by decide)⟩

/-- **C10** counterexample: querying the empty relation for the
never-registered protein id "P1" changes the relation state —
`prot2pep["P1"]` default-inserts an empty peptide set. -/
theorem getPepSites_mutates_counterexample :
    (getPepSites ⟨[], [], []⟩ ["P1"]).2 ≠ (⟨[], [], []⟩ : IntraSetRelation) := by
  decide

/-- **C10** (amended): `getPepSites` (the spec's `maxPeptideDegree`)
returns the maximum registered-peptide count over the queried proteins; it
leaves `numPeptides`, `numProteins` and every existing `prot2pep` entry
unchanged, but for each queried protein id with no `prot2pep` entry it
inserts an empty peptide set under that id (`std::map::operator[]`
default-insertion), so it is not a pure query on such inputs. -/
theorem getPepSites_frame (r : IntraSetRelation) (prot : List String) :
    (getPepSites r prot).2.numPeptides = r.numPeptides ∧
    (getPepSites r prot).2.numProteins = r.numProteins ∧
    (∀ q s, List.lookup q r.prot2pep = some s →
      List.lookup q (getPepSites r prot).2.prot2pep = some s) ∧
    (∀ q, List.lookup q r.prot2pep = none →
      List.lookup q (getPepSites r prot).2.prot2pep =
        if q ∈ prot then some ∅ else none) ∧
    (getPepSites r prot).1 =
      prot.foldl (fun m p => if degreeIn r p > m then degreeIn r p else m) 0 := by
  refine ⟨getPepSitesLoop_numPeptides prot 0 r, getPepSitesLoop_numProteins prot 0 r,
    ?_, ?_, getPepSitesLoop_value prot 0 r⟩
  · intro q s hq
    rw [getPepSites, getPepSitesLoop_lookup_prot2pep prot 0 r q, hq]
  · intro q hq
    rw [getPepSites, getPepSitesLoop_lookup_prot2pep prot 0 r q, hq]

/-- Witness for the amended C10 theorem at a concrete input: querying the
one-protein relation `relEx` for {"P1", "Q"} where "Q" was never
registered. -/
theorem getPepSites_frame_witness :
    (getPepSites relEx ["P1", "Q"]).2.numPeptides = relEx.numPeptides ∧
    (getPepSites relEx ["P1", "Q"]).2.numProteins = relEx.numProteins ∧
    List.lookup "P1" (getPepSites relEx ["P1", "Q"]).2.prot2pep = some {"x", "y"} ∧
    List.lookup "Q" (getPepSites relEx ["P1", "Q"]).2.prot2pep =
      (if "Q" ∈ ["P1", "Q"] then some ∅ else none) ∧
    (getPepSites relEx ["P1", "Q"]).1 = 2 := by
  have h := getPepSites_frame relEx ["P1", "Q"]
  refine ⟨h.1, h.2.1, h.2.2.1 "P1" {"x", "y"} (by decide), h.2.2.2.1 "Q" (by decide), ?_⟩
  rw [h.2.2.2.2]
  decide

/- ## Claim theorems: buildOutput emptiness (C5) -/

/-- **C5**: aggregation fails exactly on an empty inference result —
`buildOutput` hits `assert(sorted.size()!=0)` (modelled as `none`) iff the
posterior-error array has zero equivalence classes; every non-empty input
produces an output, and no empty input ever silently produces one. -/
theorem buildOutput_empty_iff_none :
    ∀ (p : List ℚ) (g : List (List String)), buildOutput p g = none ↔ p = [] := by
  intro p g
  unfold buildOutput
  split
  · simp_all
  · simp_all

/- ## populateTPandFNLists lemmas (C7) -/

theorem populate_cons (prot : String) (labels : List Int)
    (tl : List (String × List Int)) :
    populateTPandFNLists ((prot, labels) :: tl) =
      (if labels.any (fun l => l == 1)
        then prot :: (populateTPandFNLists tl).1 else (populateTPandFNLists tl).1,
       if labels.any (fun l => l != 1)
        then prot :: (populateTPandFNLists tl).2 else (populateTPandFNLists tl).2) := rfl

theorem mem_populate_fst :
    ∀ (m : List (String × List Int)) (x : String),
      x ∈ (populateTPandFNLists m).1 → x ∈ m.map Prod.fst := by
  intro m
  induction m with
  | nil => intro x hx; cases hx
  | cons hd tl ih =>
    intro x hx
    obtain ⟨prot, labels⟩ := hd
    rw [populate_cons] at hx
    by_cases htp : labels.any (fun l => l == 1) = true
    · rw [if_pos htp] at hx
      rcases List.mem_cons.mp hx with h | h
      · simp [h]
      · simp only [List.map_cons, List.mem_cons]
        exact Or.inr (ih x h)
    · rw [if_neg htp] at hx
      simp only [List.map_cons, List.mem_cons]
      exact Or.inr (ih x hx)

theorem mem_populate_snd :
    ∀ (m : List (String × List Int)) (x : String),
      x ∈ (populateTPandFNLists m).2 → x ∈ m.map Prod.fst := by
  intro m
  induction m with
  | nil => intro x hx; cases hx
  | cons hd tl ih =>
    intro x hx
    obtain ⟨prot, labels⟩ := hd
    rw [populate_cons] at hx
    by_cases hfp : labels.any (fun l => l != 1) = true
    · rw [if_pos hfp] at hx
      rcases List.mem_cons.mp hx with h | h
      · simp [h]
      · simp only [List.map_cons, List.mem_cons]
        exact Or.inr (ih x h)
    · rw [if_neg hfp] at hx
      simp only [List.map_cons, List.mem_cons]
      exact Or.inr (ih x hx)

/-- **C7**: for every protein in the table (with distinct protein keys, as
in a `std::map`), classification puts it in the truePositives list iff some
associated peptide has the target label 1, and in the falsePositives list
iff some associated peptide has a decoy label ≠ 1 — a protein whose
peptides are labelled both ways lands in both lists. -/
theorem populateTPandFNLists_membership :
    ∀ (m : List (String × List Int)), (m.map Prod.fst).Nodup →
      ∀ (prot : String) (labels : List Int), (prot, labels) ∈ m →
        (prot ∈ (populateTPandFNLists m).1 ↔ ∃ l ∈ labels, l = 1) ∧
        (prot ∈ (populateTPandFNLists m).2 ↔ ∃ l ∈ labels, l ≠ 1) := by
  intro m
  induction m with
  | nil => intro _ prot labels hmem; cases hmem
  | cons hd tl ih =>
    intro hnd prot labels hmem
    obtain ⟨a, b⟩ := hd
    rw [List.map_cons] at hnd
    have ha : a ∉ tl.map Prod.fst := (List.nodup_cons.mp hnd).1
    have hnd' : (tl.map Prod.fst).Nodup := (List.nodup_cons.mp hnd).2
    rcases List.mem_cons.mp hmem with heq | hmem'
    · injection heq with h1 h2
      subst h1
      subst h2
      have hnotin1 : prot ∉ (populateTPandFNLists tl).1 :=
        fun hx => ha (mem_populate_fst tl prot hx)
      have hnotin2 : prot ∉ (populateTPandFNLists tl).2 :=
        fun hx => ha (mem_populate_snd tl prot hx)
      rw [populate_cons]
      constructor
      · by_cases htp : labels.any (fun l => l == 1) = true
        · rw [if_pos htp]
          constructor
          · intro _
            simpa [List.any_eq_true, beq_iff_eq] using htp
          · intro _
            exact List.mem_cons_self _ _
        · rw [if_neg htp]
          constructor
          · intro hx
            exact absurd hx hnotin1
          · intro hex
            exact absurd (by simpa [List.any_eq_true, beq_iff_eq] using hex) htp
      · by_cases hfp : labels.any (fun l => l != 1) = true
        · rw [if_pos hfp]
          constructor
          · intro _
            simpa [List.any_eq_true, bne_iff_ne] using hfp
          · intro _
            exact List.mem_cons_self _ _
        · rw [if_neg hfp]
          constructor
          · intro hx
            exact absurd hx hnotin2
          · intro hex
            exact absurd (by simpa [List.any_eq_true, bne_iff_ne] using hex) hfp
    · have hprotmem : prot ∈ tl.map Prod.fst := List.mem_map_of_mem Prod.fst hmem'
      have hne : prot ≠ a := fun h => ha (h ▸ hprotmem)
      have hih := ih hnd' prot labels hmem'
      rw [populate_cons]
      constructor
      · by_cases htp : b.any (fun l => l == 1) = true
        · rw [if_pos htp]
          constructor
          · intro hx
            rcases List.mem_cons.mp hx with h | h
            · exact absurd h hne
            · exact hih.1.mp h
          · intro hex
            exact List.mem_cons_of_mem _ (hih.1.mpr hex)
        · rw [if_neg htp]
          exact hih.1
      · by_cases hfp : b.any (fun l => l != 1) = true
        · rw [if_pos hfp]
          constructor
          · intro hx
            rcases List.mem_cons.mp hx with h | h
            · exact absurd h hne
            · exact hih.2.mp h
          · intro hex
            exact List.mem_cons_of_mem _ (hih.2.mpr hex)
        · rw [if_neg hfp]
          exact hih.2

/-- Witness for C7 at the concrete table of one protein "P" whose peptides
are labelled [target, decoy]: "P" is classified into both lists. -/
theorem populateTPandFNLists_membership_witness :
    "P" ∈ (populateTPandFNLists [("P", [1, -1])]).1 ∧
    "P" ∈ (populateTPandFNLists [("P", [1, -1])]).2 := by
  have h := populateTPandFNLists_membership [("P", [1, -1])] (by decide) "P" [1, -1]
    (by decide)
  exact ⟨h.1.mpr ⟨1, by decide, rfl⟩, h.2.mpr ⟨-1, by decide, by decide⟩⟩

/- ## buildOutput lemmas (C4, C6) -/

theorem qvaluesAux_length : ∀ (l : List ℚ) (sum : ℚ) (k : Nat),
    (qvaluesAux sum k l).length = l.length := by
  intro l
  induction l with
  | nil => intro sum k; rfl
  | cons p rest ih => intro sum k; simp [qvaluesAux, ih]

theorem qvaluesAux_getD_succ :
    ∀ (l : List ℚ) (sum : ℚ) (k i : Nat), i + 1 < l.length →
      (qvaluesAux sum k l).getD (i + 1) 0 =
        (((k : ℚ) + i + 1) * (qvaluesAux sum k l).getD i 0 + l.getD (i + 1) 0) /
          ((k : ℚ) + i + 2) := by
  intro l
  induction l with
  | nil => intro sum k i h; simp at h
  | cons p rest ih =>
    intro sum k i h
    cases i with
    | zero =>
      cases rest with
      | nil => simp at h
      | cons q rest2 =>
        have hk : ((k : ℚ) + 1) ≠ 0 := by positivity
        simp only [qvaluesAux, List.getD_cons_succ, List.getD_cons_zero]
        push_cast
        simp only [add_zero]
        rw [← mul_div_assoc, mul_div_cancel_left₀ _ hk]
        ring_nf
    | succ j =>
      have h' : j + 1 < rest.length := by
        simp only [List.length_cons] at h
        omega
      show (qvaluesAux (sum + p) (k + 1) rest).getD (j + 1) 0 = _
      rw [ih (sum + p) (k + 1) j h']
      simp only [qvaluesAux, List.getD_cons_succ]
      push_cast
      ring

theorem zipIdx_length : ∀ (l : List ℚ) (k : Nat), (zipIdx l k).length = l.length := by
  intro l
  induction l with
  | nil => intro k; rfl
  | cons x xs ih => intro k; simp [zipIdx, ih]

theorem zipIdx_map_snd : ∀ (l : List ℚ) (k : Nat),
    (zipIdx l k).map Prod.snd = List.range' k l.length := by
  intro l
  induction l with
  | nil => intro k; rfl
  | cons x xs ih =>
    intro k
    show k :: (zipIdx xs (k + 1)).map Prod.snd = List.range' k (xs.length + 1)
    rw [List.range'_succ, ih]

theorem zipIdx_mem_getD :
    ∀ (l : List ℚ) (k : Nat) (pr : ℚ × Nat), pr ∈ zipIdx l k →
      k ≤ pr.2 ∧ pr.2 - k < l.length ∧ pr.1 = l.getD (pr.2 - k) 0 := by
  intro l
  induction l with
  | nil => intro k pr h; cases h
  | cons x xs ih =>
    intro k pr h
    rcases List.mem_cons.mp h with h1 | h1
    · subst h1
      refine ⟨le_refl _, by simp, by simp⟩
    · obtain ⟨hk1, hlen, hval⟩ := ih (k + 1) pr h1
      have hk : k ≤ pr.2 := by omega
      have hsub : pr.2 - k = (pr.2 - (k + 1)) + 1 := by omega
      refine ⟨hk, ?_, ?_⟩
      · simp only [List.length_cons]
        omega
      · rw [hsub, List.getD_cons_succ, ← hval]

theorem sortWithIndices_perm (p : List ℚ) : (sortWithIndices p).Perm (zipIdx p 0) :=
  List.perm_insertionSort pairLe _

theorem sortWithIndices_sorted (p : List ℚ) :
    List.Sorted pairLe (sortWithIndices p) :=
  List.sorted_insertionSort pairLe _

theorem sortWithIndices_fst_getD (p : List ℚ) :
    ∀ pr ∈ sortWithIndices p, pr.1 = p.getD pr.2 0 := by
  intro pr hpr
  have h0 := (sortWithIndices_perm p).mem_iff.mp hpr
  have h := zipIdx_mem_getD p 0 pr h0
  simpa using h.2.2

theorem sortPermutation_perm_range (p : List ℚ) :
    (sortPermutation p).Perm (List.range p.length) := by
  have h1 : (sortPermutation p).Perm ((zipIdx p 0).map Prod.snd) :=
    List.Perm.map Prod.snd (sortWithIndices_perm p)
  rw [zipIdx_map_snd, ← List.range_eq_range'] at h1
  exact h1

/- ## Claim theorems: buildOutput (C4, C6) -/

/-- **C4**: for every successful aggregation the q-value array satisfies the
exact cumulative-mean recurrence over the ascending-sorted posterior errors:
`q[0] = p[0]` and `q[k] = (k·q[k-1] + p[k]) / (k+1)` for `k ≥ 1`; in
particular posterior errors [0.1, 0.2, 0.3] yield q-values
[0.1, 0.15, 0.2]. -/
theorem buildOutput_qvalues_cumulative_mean :
    (∀ (p : List ℚ) (g : List (List String)) (out : fidoOutput),
      buildOutput p g = some out →
        out.qvalues.length = out.peps.length ∧
        out.qvalues.getD 0 0 = out.peps.getD 0 0 ∧
        ∀ k, 0 < k → k < out.peps.length →
          out.qvalues.getD k 0 =
            ((k : ℚ) * out.qvalues.getD (k - 1) 0 + out.peps.getD k 0) /
              ((k : ℚ) + 1)) ∧
    buildOutput [1/10, 2/10, 3/10] [["A"], ["B"], ["C"]] =
      some ⟨[1/10, 2/10, 3/10], [["A"], ["B"], ["C"]], [1/10, 3/20, 1/5]⟩ := by
  constructor
  · intro p g out h
    rw [buildOutput] at h
    split at h
    · cases h
    · injection h with h'
      have hpeps : out.peps = (sortWithIndices p).map Prod.fst := by rw [← h']
      have hq : out.qvalues = qvaluesAux 0 0 ((sortWithIndices p).map Prod.fst) := by
        rw [← h']
      refine ⟨?_, ?_, ?_⟩
      · rw [hq, hpeps, qvaluesAux_length]
      · rw [hq, hpeps]
        cases hs : (sortWithIndices p).map Prod.fst with
        | nil => rfl
        | cons a rest => simp [qvaluesAux]
      · intro k hk hklen
        rw [hpeps] at hklen
        obtain ⟨j, rfl⟩ : ∃ j, k = j + 1 := ⟨k - 1, by omega⟩
        rw [hq, hpeps]
        rw [qvaluesAux_getD_succ _ 0 0 j hklen]
        simp only [Nat.add_sub_cancel]
        push_cast
        ring
  · rw [buildOutput, if_neg (by simp)]
    norm_num [sortWithIndices, zipIdx, pairLe, qvaluesAux]

/-- Witness for C4 at the concrete input [0.1, 0.2, 0.3]: the recurrence at
rank 1 evaluated on the concrete output. -/
theorem buildOutput_qvalues_cumulative_mean_witness :
    (fidoOutput.mk [1/10, 2/10, 3/10] [["A"], ["B"], ["C"]] [1/10, 3/20, 1/5]).qvalues.getD
        1 0 =
      (((1 : ℕ) : ℚ) *
        (fidoOutput.mk [1/10, 2/10, 3/10] [["A"], ["B"], ["C"]]
          [1/10, 3/20, 1/5]).qvalues.getD (1 - 1) 0 +
        (fidoOutput.mk [1/10, 2/10, 3/10] [["A"], ["B"], ["C"]]
          [1/10, 3/20, 1/5]).peps.getD 1 0) / (((1 : ℕ) : ℚ) + 1) := by
  have h := buildOutput_qvalues_cumulative_mean
  exact (h.1 [1/10, 2/10, 3/10] [["A"], ["B"], ["C"]] _ h.2).2.2 1 (by decide) (by decide)

/-- **C6**: every successful aggregation yields index-aligned arrays of
equal length (all of the input's length), a non-decreasing posterior-error
array, and protein-id groups reordered by the very permutation that sorts
the posterior errors. -/
theorem buildOutput_aligned_sorted_permuted :
    ∀ (p : List ℚ) (g : List (List String)) (out : fidoOutput),
      buildOutput p g = some out →
        out.peps.length = p.length ∧
        out.protein_ids.length = p.length ∧
        out.qvalues.length = p.length ∧
        out.peps.Sorted (· ≤ ·) ∧
        (sortPermutation p).Perm (List.range p.length) ∧
        out.peps = (sortPermutation p).map (fun i => p.getD i 0) ∧
        out.protein_ids = (sortPermutation p).map (fun i => g.getD i []) := by
  intro p g out h
  rw [buildOutput] at h
  split at h
  · cases h
  · injection h with h'
    have hpeps : out.peps = (sortWithIndices p).map Prod.fst := by rw [← h']
    have hids : out.protein_ids = (sortWithIndices p).map (fun pr => g.getD pr.2 []) := by
      rw [← h']
    have hq : out.qvalues = qvaluesAux 0 0 ((sortWithIndices p).map Prod.fst) := by
      rw [← h']
    have hslen : (sortWithIndices p).length = p.length := by
      rw [(sortWithIndices_perm p).length_eq, zipIdx_length]
    refine ⟨?_, ?_, ?_, ?_, sortPermutation_perm_range p, ?_, ?_⟩
    · rw [hpeps, List.length_map, hslen]
    · rw [hids, List.length_map, hslen]
    · rw [hq, qvaluesAux_length, List.length_map, hslen]
    · rw [hpeps]
      refine List.Pairwise.map Prod.fst ?_ (sortWithIndices_sorted p)
      intro a b hab
      rcases hab with hlt | ⟨heq, _⟩
      · exact le_of_lt hlt
      · exact le_of_eq heq
    · rw [hpeps, sortPermutation, List.map_map]
      exact List.map_congr_left (fun pr hpr => sortWithIndices_fst_getD p pr hpr)
    · rw [hids, sortPermutation, List.map_map]
      rfl

/-- Witness for C6 at the concrete unsorted input [0.5, 0.25] with groups
[["A"], ["B"]]: the output is sorted, and both parallel arrays are the
input arrays reordered by the sorting permutation. -/
theorem buildOutput_aligned_sorted_permuted_witness :
    (fidoOutput.mk [1/4, 1/2] [["B"], ["A"]] [1/4, 3/8]).peps.Sorted (· ≤ ·) ∧
    (fidoOutput.mk [1/4, 1/2] [["B"], ["A"]] [1/4, 3/8]).peps =
      (sortPermutation [1/2, 1/4]).map (fun i => ([1/2, 1/4] : List ℚ).getD i 0) ∧
    (fidoOutput.mk [1/4, 1/2] [["B"], ["A"]] [1/4, 3/8]).protein_ids =
      (sortPermutation [1/2, 1/4]).map (fun i => ([["A"], ["B"]] : List (List String)).getD i []) ∧
    (sortPermutation [1/2, 1/4]).Perm (List.range ([1/2, 1/4] : List ℚ).length) := by
  have h := buildOutput_aligned_sorted_permuted [1/2, 1/4] [["A"], ["B"]]
    ⟨[1/4, 1/2], [["B"], ["A"]], [1/4, 3/8]⟩
    (by rw [buildOutput, if_neg (by simp)]
        norm_num [sortWithIndices, zipIdx, pairLe, qvaluesAux])
  exact ⟨h.2.2.2.1, h.2.2.2.2.2.1, h.2.2.2.2.2.2, h.2.2.2.2.1⟩
